import Mathlib

set_option linter.unusedVariables false

/-!
Verification of the GPU device resource-manager layer declared in
ROCclr/runtime/device/gpu/gpudevice.hpp.

The development shallowly embeds the data model and the operations of the
header: the inline member functions of NullDevice, the ScratchBuffer and
SrdManager constructors, and the XferBuffers / VACache / Heap / scratch /
SRD state machines.  Machine integers are modelled as Nat (all quantities
involved are sizes, counts and addresses that the code never overflows in
the properties considered).  Pointers are modelled as Nat identifiers;
a C++ NULL pointer result is Option.none.
-/

namespace GpuDev

/-! ### NullDevice inline members (gpudevice.hpp lines 65-131)

Each function below transcribes an inline body from the header.  An output
parameter is threaded explicitly: the function receives the current
contents of the location and returns the contents after the call, so an
untouched output parameter is returned unchanged. -/

/-- Embeds `NullDevice::createMemory` (line 78): `return NULL;` for any owner. -/
def nullCreateMemory (owner : Nat) : Option Nat := none

/-- Embeds `NullDevice::createView` (lines 91-94): `return NULL;` for any
owner and parent. -/
def nullCreateView (owner parent : Nat) : Option Nat := none

/-- Embeds `NullDevice::reallocMemory` (line 97): `return true;`; the method
is const and its body touches nothing, so the owner is returned unchanged. -/
def nullReallocMemory (owner : Nat) : Bool × Nat := (true, owner)

/-- Embeds `NullDevice::createVirtualDevice` (lines 65-72): the body is
`return NULL;` regardless of the profiling / interop flags and queue size. -/
def nullCreateVirtualDevice (profiling interopQueue : Bool) (deviceQueueSize : Nat) :
    Option Nat := none

/-- Embeds `NullDevice::globalFreeMemory` (line 126): `return false;` without
writing through the `freeMemory` output pointer, whose contents are threaded. -/
def nullGlobalFreeMemory (freeMemory : Option Nat) : Bool × Option Nat :=
  (false, freeMemory)

/-- Result of a `NullDevice::createSampler` call: whether the
`ShouldNotReachHere()` assertion was executed, the returned Bool, and the
contents of the `sampler` output location after the call. -/
structure SamplerCallResult where
  assertTripped : Bool
  returned : Bool
  samplerOut : Option Nat
deriving DecidableEq

/-- Embeds `NullDevice::createSampler` (lines 81-88): the body executes
`ShouldNotReachHere();` and then `return true;`, never writing `*sampler`. -/
def nullCreateSampler (samplerOut : Option Nat) : SamplerCallResult :=
  { assertTripped := true, returned := true, samplerOut := samplerOut }

/-! ### ScratchBuffer construction (gpudevice.hpp lines 296-311)

The struct has four scalar/vector members; the constructor
`ScratchBuffer(uint numMems): regNum_(0), memObjs_(numMems), offset_(0) {}`
initialises three of them.  A scalar member is modelled as `Option Nat`:
`some v` when the constructor stores `v`, `none` when the member is left
uninitialised (no determinate value).  `memObjs_(numMems)` value-constructs
a vector of `numMems` null `Memory*` pointers. -/

structure ScratchBufferC where
  regNum_ : Option Nat
  memObjs_ : List (Option Nat)
  offset_ : Option Nat
  size_ : Option Nat
deriving DecidableEq

/-- Embeds the `ScratchBuffer` constructor (line 304): the initialiser list
names `regNum_(0)`, `memObjs_(numMems)` and `offset_(0)`; `size_` is absent
from the list and the body is empty. -/
def mkScratchBuffer (numMems : Nat) : ScratchBufferC :=
  { regNum_ := some 0
    memObjs_ := List.replicate numMems none
    offset_ := some 0
    size_ := none }

/-! ### SrdManager sizing (gpudevice.hpp lines 314-352) -/

/-- Embeds `SrdManager::MaskBits = 32` (line 345). -/
def MaskBits : Nat := 32

/-- Embeds the `numFlags_` member initialiser of the `SrdManager`
constructor (line 318): `numFlags_(bufSize / (srdSize * MaskBits))`,
C++ unsigned integer (truncating) division. -/
def numFlags (srdSize bufSize : Nat) : Nat := bufSize / (srdSize * MaskBits)

/-- Slots available in one chunk: `numFlags_` flag words of `MaskBits`
occupancy bits each. -/
def srdSlotsPerChunk (srdSize bufSize : Nat) : Nat := numFlags srdSize bufSize * MaskBits

/-! ### VACache (gpudevice.hpp lines 277-294, 492-498, 619)

Embeds `Device::VACacheEntry` and the VA-cache operations.  The cache
container is the `std::list<VACacheEntry*>* vaCacheList_` member declared at
line 619, embedded as a Lean `List`.  The bodies of `addVACache`,
`removeVACache` and `findMemoryFromVA` are not part of the sources under
src/ (the header only declares them at lines 492-498). -/

/-- Embeds `Device::VACacheEntry` (lines 278-294): start address, end
address and the associated memory object (a `Memory*`, modelled as an
identifier). -/
structure VACacheEntry where
  startAddress_ : Nat
  endAddress_ : Nat
  memory_ : Nat
deriving DecidableEq

/-- Containment test of a pointer in an entry's half-open range
[startAddress_, endAddress_). -/
def vaContains (e : VACacheEntry) (p : Nat) : Bool :=
  decide (e.startAddress_ ≤ p) && decide (p < e.endAddress_)

/-- Modelled from the spec: the body of `Device::addVACache` is missing from
src/ (only the declaration at line 492 is present).  Per spec 4.4 it
"inserts a range keyed by its [start,end) device-visible address" into the
`std::list` cache; insertion appends the new entry. -/
def addVACache (cache : List VACacheEntry) (e : VACacheEntry) : List VACacheEntry :=
  cache ++ [e]

/-- Modelled from the spec: the body of `Device::removeVACache` is missing
from src/ (only the declaration at line 495 is present).  Per spec 4.4 it
deletes the range registered for the given memory object. -/
def removeVACache (cache : List VACacheEntry) (m : Nat) : List VACacheEntry :=
  cache.filter (fun e => e.memory_ != m)

/-- Modelled from the spec: the body of `Device::findMemoryFromVA` is
missing from src/ (only the declaration at line 498 is present).  Per spec
4.4 it "returns the entry whose range contains ptr and the byte offset
within it, or null if unmapped"; over the `std::list` declared at line 619
this is a containment scan, returning the memory object and offset of the
first entry containing the pointer. -/
def findMemoryFromVA : List VACacheEntry → Nat → Option (Nat × Nat)
  | [], _ => none
  | e :: rest, p =>
    if vaContains e p then some (e.memory_, p - e.startAddress_)
    else findMemoryFromVA rest p

/-- Number of cache entries the scan of `findMemoryFromVA` examines:
every entry up to and including the hit, or the whole list on a miss. -/
def vaScanCost : List VACacheEntry → Nat → Nat
  | [], _ => 0
  | e :: rest, p => if vaContains e p then 1 else 1 + vaScanCost rest p

/-- A cache of n pairwise-disjoint one-byte ranges [2i, 2i+1), i < n;
used to exhibit the worst case of the containment scan. -/
def vaChainCache (n : Nat) : List VACacheEntry :=
  (List.range n).map (fun i => ⟨2 * i, 2 * i + 1, i⟩)

/-! ### XferBuffers (gpudevice.hpp lines 228-275)

Embeds `Device::XferBuffers`.  The state is the pool of free staging
buffers (`freeBuffers_`, the buffers being interchangeable only their count
matters) and the acquired counter (`acquiredCnt_`).  The bodies of
`acquire` and `release` are not part of the sources under src/ (the header
declares them at lines 248-254); they are modelled from spec 4.3. -/

/-- Embeds `XferBuffers::MaxXferBufListSize = 8` (line 231). -/
def MaxXferBufListSize : Nat := 8

/-- State of one `XferBuffers` pool: size of the `freeBuffers_` list and
the `acquiredCnt_` counter. -/
structure XferPool where
  free : Nat
  acquired : Nat
deriving DecidableEq

/-- Modelled from the spec: the body of `XferBuffers::acquire` is missing
from src/.  Per spec 4.3 it "blocks until a free staging buffer is
available if the pool is at its 8-buffer ceiling and all are in use;
otherwise returns an idle buffer or allocates a new one up to the
ceiling".  A completed call returns the new pool state; `none` is the
blocked call (no state transition until some release runs). -/
def xferAcquire (s : XferPool) : Option XferPool :=
  if 0 < s.free then some ⟨s.free - 1, s.acquired + 1⟩
  else if s.acquired < MaxXferBufListSize then some ⟨s.free, s.acquired + 1⟩
  else none

/-- Modelled from the spec: the body of `XferBuffers::release` is missing
from src/.  Per spec 4.3 it "returns the buffer to the free list"; the
caller holds an acquired buffer, so `acquiredCnt_` is positive and is
decremented while the free list grows by the returned buffer. -/
def xferRelease (s : XferPool) : XferPool :=
  if 0 < s.acquired then ⟨s.free + 1, s.acquired - 1⟩ else s

/-- One event on a pool: an acquire attempt or a release. -/
inductive XferOp where
  | acquire
  | release

/-- Applies one event; a blocked acquire leaves the state unchanged. -/
def stepXfer (s : XferPool) : XferOp → XferPool
  | .acquire => (xferAcquire s).getD s
  | .release => xferRelease s

/-- Runs a sequence of acquire/release events from a starting state. -/
def runXfer (s : XferPool) (ops : List XferOp) : XferPool :=
  ops.foldl stepXfer s

/-! ### Scratch allocation (gpudevice.hpp lines 296-311, 599-602)

Embeds the per-queue scratch sizes held in the `scratch_` vector of
`ScratchBuffer` records, as a map from queue index to the queue's `size_`.
The body of `Device::allocScratch` is not part of the sources under src/
(the header declares it at lines 599-602). -/

/-- Modelled from the spec: the body of `Device::allocScratch` is missing
from src/.  Per spec 4.6 it "computes the queue's required scratch size"
from the register count (the computation `calc` is also outside src/, kept
abstract); "if it exceeds the queue's current ScratchBuffer allocation, the
global scratch store must grow", and "scratch never shrinks in response to
a smaller request; it only grows when a new maximum is requested". -/
def allocScratch (szCalc : Nat → Nat) (sizes : Nat → Nat) (q regNum : Nat) : Nat → Nat :=
  if szCalc regNum ≤ sizes q then sizes
  else fun q2 => if q2 = q then szCalc regNum else sizes q2

/-- Runs a sequence of (queue, regNum) scratch requests. -/
def runScratch (szCalc : Nat → Nat) (sizes : Nat → Nat) : List (Nat × Nat) → Nat → Nat
  | [] => sizes
  | (q, r) :: ops => runScratch szCalc (allocScratch szCalc sizes q r) ops

/-! ### SrdManager slot allocation (gpudevice.hpp lines 314-352)

Embeds the `pool_` vector of `Chunk`s.  Each chunk's `flags_` array of
`numFlags_` MaskBits-wide words is embedded as its sequence of occupancy
bits, a `List Bool` of length cap = `numFlags_ * MaskBits` (`true` =
occupied).  The bodies of `allocSrdSlot` and `freeSrdSlot` are not part of
the sources under src/ (the header declares them at lines 324-327); they
are modelled from spec 4.5.  A slot handle is the pair (chunk index, slot
index within the chunk). -/

/-- Index of the first clear occupancy bit of a chunk, if any. -/
def firstFalse : List Bool → Option Nat
  | [] => none
  | b :: rest => if b then (firstFalse rest).map (· + 1) else some 0

/-- First free slot across the chunks of the pool, scanning chunks in
order: (chunk index, slot index). -/
def findFreeSlot : List (List Bool) → Option (Nat × Nat)
  | [] => none
  | c :: rest =>
    match firstFalse c with
    | some i => some (0, i)
    | none => (findFreeSlot rest).map (fun s => (s.1 + 1, s.2))

/-- Writes occupancy bit i of chunk ci. -/
def updPool : List (List Bool) → Nat → Nat → Bool → List (List Bool)
  | [], _, _, _ => []
  | c :: rest, 0, i, v => c.set i v :: rest
  | c :: rest, ci + 1, i, v => c :: updPool rest ci i v

/-- Reads occupancy bit i of chunk ci (false outside the pool). -/
def getSlot (pool : List (List Bool)) (ci i : Nat) : Bool :=
  (pool.getD ci []).getD i false

/-- Modelled from the spec: the body of `SrdManager::allocSrdSlot` is
missing from src/ (only the declaration at line 324 is present).  Per spec
4.5 it "finds the first unset bit across existing chunks' bitmaps, marks it
used, and returns a handle encoding (chunk index, slot index)"; "if all
chunks are full, a new chunk (fixed-size bitmap over a fixed-size backing
Resource) is appended" and its first slot is handed out. -/
def allocSrdSlot (cap : Nat) (pool : List (List Bool)) :
    List (List Bool) × Nat × Nat :=
  match findFreeSlot pool with
  | some (ci, i) => (updPool pool ci i true, ci, i)
  | none => (pool ++ [(List.replicate cap false).set 0 true], pool.length, 0)

/-- Modelled from the spec: the body of `SrdManager::freeSrdSlot` is
missing from src/ (only the declaration at line 327 is present).  Per spec
4.5 it "clears the corresponding bit". -/
def freeSrdSlot (pool : List (List Bool)) (ci i : Nat) : List (List Bool) :=
  updPool pool ci i false

/-- Every chunk carries cap occupancy bits (`numFlags_ * MaskBits`). -/
def chunksWF (cap : Nat) (pool : List (List Bool)) : Bool :=
  pool.all (fun c => c.length == cap)

/-- Total number of occupied slots across the chunk table. -/
def countTrue (pool : List (List Bool)) : Nat :=
  (pool.map (fun c => c.count true)).sum

/-- One SrdManager request: a slot allocation or a slot free. -/
inductive SrdOp where
  | alloc
  | free (ci i : Nat)

/-- Applies one request to the pool. -/
def stepSrd (cap : Nat) (pool : List (List Bool)) : SrdOp → List (List Bool)
  | .alloc => (allocSrdSlot cap pool).1
  | .free ci i => freeSrdSlot pool ci i

/-- Runs a sequence of alloc/free requests. -/
def runSrd (cap : Nat) (pool : List (List Bool)) (ops : List SrdOp) :
    List (List Bool) :=
  ops.foldl (stepSrd cap) pool

/-! ### Heap / HeapBlock (gpudevice.hpp lines 372-376, 452-460, 605-606)

Embeds the global heap owned by `Device` (`heapSize_`, `heap_`) and its
blocks.  The `Heap` and `HeapBlock` classes and the bodies of
`Device::allocHeapBlock` and `Device::reallocHeap` are not part of the
sources under src/ (the header forward-declares the classes at lines
143-144 and declares the two member functions at lines 458-460 and
373-376); they are modelled from spec 3 and 4.1.  A live block is its
(offset, size) sub-range of the heap's address space; the heap state keeps
live blocks ordered by offset, the free regions being the gaps. -/

/-- A heap block: offset into the heap's address space and byte size
(spec 3: HeapBlock = {offset, size, in-use flag}; only live blocks are
kept, so the flag is implicit). -/
structure HeapBlock where
  off : Nat
  len : Nat
deriving DecidableEq

/-- The heap: its size and the live blocks, ordered by offset
(spec 3: Heap = {size, ordered collection of HeapBlock, backing Resource}). -/
structure Heap where
  size : Nat
  blocks : List HeapBlock
deriving DecidableEq

/-- The blocks form an offset-ordered chain of pairwise-disjoint ranges
starting at or after pos. -/
def chainOK (pos : Nat) : List HeapBlock → Bool
  | [] => true
  | b :: rest => decide (pos ≤ b.off) && chainOK (b.off + b.len) rest

/-- Every block ends within the first size bytes. -/
def endsLE (size : Nat) (bs : List HeapBlock) : Bool :=
  bs.all (fun b => decide (b.off + b.len ≤ size))

/-- Heap well-formedness: disjoint ordered blocks inside the heap's
address space. -/
def heapWF (h : Heap) : Bool := chainOK 0 h.blocks && endsLE h.size h.blocks

/-- First-fit search for a gap of sz bytes: pos is the lowest address not
covered by an already-scanned block; returns the block list with the new
block inserted in order, and its offset. -/
def allocIn (heapSize sz pos : Nat) : List HeapBlock → Option (List HeapBlock × Nat)
  | [] => if pos + sz ≤ heapSize then some ([⟨pos, sz⟩], pos) else none
  | b :: rest =>
    if pos + sz ≤ b.off then some (⟨pos, sz⟩ :: b :: rest, pos)
    else
      match allocIn heapSize sz (b.off + b.len) rest with
      | some (bs, off) => some (b :: bs, off)
      | none => none

/-- Highest address covered by any live block. -/
def heapEnd : List HeapBlock → Nat
  | [] => 0
  | b :: rest => max (b.off + b.len) (heapEnd rest)

/-- Outcome of an allocation request: a block from the current heap, a
block after growing the heap, or a reported allocation failure. -/
inductive AllocResult where
  | ok (h : Heap) (off : Nat)
  | realloc (h : Heap) (off : Nat)
  | failed
deriving DecidableEq

/-- Modelled from the spec: the body of `Device::reallocHeap` is missing
from src/ (only the declaration at lines 373-376 is present).  Per spec
4.1, reallocation grows the backing Resource, copying existing live data:
the heap size grows to the requested size and live blocks are preserved. -/
def reallocHeap (h : Heap) (newSize : Nat) : Heap :=
  { size := max h.size newSize, blocks := h.blocks }

/-- Modelled from the spec: the body of `Device::allocHeapBlock` is missing
from src/ (only the declaration at lines 458-460 is present).  Per spec 4.1
it "returns a block of at least size bytes from the current heap, or
triggers reallocHeap if no sufficiently large free region exists"; a native
allocation failure during growth (nativeOK = false) "is reported as
allocation failure, not as a fatal error". -/
def allocHeapBlock (h : Heap) (sz : Nat) (nativeOK : Bool) : AllocResult :=
  match allocIn h.size sz 0 h.blocks with
  | some (bs, off) => AllocResult.ok { size := h.size, blocks := bs } off
  | none =>
    if nativeOK then
      match allocIn (reallocHeap h (heapEnd h.blocks + sz)).size sz 0 h.blocks with
      | some (bs, off) =>
        AllocResult.realloc
          { size := (reallocHeap h (heapEnd h.blocks + sz)).size, blocks := bs } off
      | none => AllocResult.failed
    else AllocResult.failed

/-- Release of the block at a given offset: it leaves the live set, and the
gap it leaves merges with any adjacent gaps (free space is the complement
of the live blocks, so coalescing is implicit). -/
def freeBlock (h : Heap) (off : Nat) : Heap :=
  { size := h.size, blocks := h.blocks.filter (fun b => b.off != off) }

/-- One heap request: a block allocation (with the given native-allocation
outcome for any required growth) or a block release. -/
inductive HeapOp where
  | alloc (sz : Nat) (nativeOK : Bool)
  | free (off : Nat)

/-- Applies one request; a failed allocation leaves the heap unchanged. -/
def stepHeap (h : Heap) : HeapOp → Heap
  | .alloc sz nOK =>
    match allocHeapBlock h sz nOK with
    | .ok h2 _ => h2
    | .realloc h2 _ => h2
    | .failed => h
  | .free off => freeBlock h off

/-- Runs a sequence of allocations and releases. -/
def runHeapOps (h : Heap) (ops : List HeapOp) : Heap := ops.foldl stepHeap h

/-- Total size of the live blocks. -/
def blockSum (bs : List HeapBlock) : Nat := (bs.map (fun b => b.len)).sum

end GpuDev

namespace GpuDev

/-! ### Theorems for the directly-embedded inline members -/

/-- Claim C8: the null/offline device variant performs no resource
operations: `createMemory` and `createView` return null for every input,
`reallocMemory` returns true without modifying anything,
`createVirtualDevice` returns null, and `globalFreeMemory` returns false
without writing to its output parameter. -/
theorem nullDevice_noop (owner parent : Nat) (profiling interopQueue : Bool)
    (deviceQueueSize : Nat) (freeMemory : Option Nat) :
    nullCreateMemory owner = none ∧
    nullCreateView owner parent = none ∧
    nullReallocMemory owner = (true, owner) ∧
    nullCreateVirtualDevice profiling interopQueue deviceQueueSize = none ∧
    nullGlobalFreeMemory freeMemory = (false, freeMemory) := by
  exact ⟨rfl, rfl, rfl, rfl, rfl⟩

/-- Claim C9: the `ScratchBuffer` constructor initialises `regNum_` and
`offset_` to 0 and sizes `memObjs_` to `numMems` (null entries), but leaves
the `size_` field uninitialised, so a read of `size_` before the first
assignment observes no determinate value (`none` in the embedding). -/
theorem scratchBuffer_ctor_fields (numMems : Nat) :
    (mkScratchBuffer numMems).regNum_ = some 0 ∧
    (mkScratchBuffer numMems).offset_ = some 0 ∧
    (mkScratchBuffer numMems).memObjs_.length = numMems ∧
    (∀ m ∈ (mkScratchBuffer numMems).memObjs_, m = none) ∧
    (mkScratchBuffer numMems).size_ = none := by
  refine ⟨rfl, rfl, ?_, ?_, rfl⟩
  · simp [mkScratchBuffer]
  · intro m hm
    simpa using List.eq_of_mem_replicate (by simpa [mkScratchBuffer] using hm)

/-- Claim C10: every call to `NullDevice::createSampler` executes the
`ShouldNotReachHere()` assertion, and past the assertion returns true
without producing a sampler object (the output location is unchanged). -/
theorem nullDevice_createSampler_trips (samplerOut : Option Nat) :
    (nullCreateSampler samplerOut).assertTripped = true ∧
    (nullCreateSampler samplerOut).returned = true ∧
    (nullCreateSampler samplerOut).samplerOut = samplerOut := by
  exact ⟨rfl, rfl, rfl⟩

/-- Claim C6, counterexample: with `srdSize = 1` and `bufSize = 33` the
constructor computes `numFlags_ = 1`, so the chunk capacity is 32 slots of
1 byte, which does not exactly fill the 33-byte buffer. -/
theorem srd_capacity_exact_cex :
    ¬ (1 * srdSlotsPerChunk 1 33 = 33) := by decide

/-- Claim C6 as amended: slot size times slots-per-chunk never exceeds the
chunk buffer size, and equals it exactly when `srdSize * MaskBits` divides
`bufSize`; when `bufSize` is not a multiple of `srdSize * 32`, integer
truncation leaves a strict remainder uncovered. -/
theorem srd_capacity_le (srdSize bufSize : Nat) (hs : 0 < srdSize) :
    srdSize * srdSlotsPerChunk srdSize bufSize ≤ bufSize ∧
    (srdSize * srdSlotsPerChunk srdSize bufSize = bufSize ↔
      srdSize * MaskBits ∣ bufSize) := by
  have hrw : srdSize * srdSlotsPerChunk srdSize bufSize =
      bufSize / (srdSize * MaskBits) * (srdSize * MaskBits) := by
    simp only [srdSlotsPerChunk, numFlags]
    ring
  constructor
  · rw [hrw]
    exact Nat.div_mul_le_self _ _
  · rw [hrw]
    constructor
    · intro h
      exact Dvd.intro_left _ h
    · intro h
      exact Nat.div_mul_cancel h

/-- Witness for `srd_capacity_le` at `srdSize = 4`, `bufSize = 4096`. -/
theorem srd_capacity_le_inst :
    4 * srdSlotsPerChunk 4 4096 ≤ 4096 ∧
    (4 * srdSlotsPerChunk 4 4096 = 4096 ↔ 4 * MaskBits ∣ 4096) :=
  srd_capacity_le 4 4096 (by decide)

/-! ### VACache lemmas -/

/-- The containment scan skips a leading segment none of whose entries
contain the pointer. -/
lemma findMemoryFromVA_append_of_none (l1 l2 : List VACacheEntry) (p : Nat)
    (h : ∀ x ∈ l1, vaContains x p = false) :
    findMemoryFromVA (l1 ++ l2) p = findMemoryFromVA l2 p := by
  induction l1 with
  | nil => simp
  | cons e rest ih =>
    have he : vaContains e p = false := h e (by simp)
    simp only [List.cons_append, findMemoryFromVA, he, if_false]
    exact ih (fun x hx => h x (by simp [hx]))

/-- A pointer contained in no cached range scans to the not-found sentinel. -/
lemma findMemoryFromVA_of_none (l : List VACacheEntry) (p : Nat)
    (h : ∀ x ∈ l, vaContains x p = false) :
    findMemoryFromVA l p = none := by
  have := findMemoryFromVA_append_of_none l [] p h
  simpa using this

/-- A miss examines every cached entry. -/
lemma vaScanCost_of_none (l : List VACacheEntry) (p : Nat)
    (h : ∀ x ∈ l, vaContains x p = false) :
    vaScanCost l p = l.length := by
  induction l with
  | nil => rfl
  | cons e rest ih =>
    have he : vaContains e p = false := h e (by simp)
    have ih2 := ih (fun x hx => h x (by simp [hx]))
    simp only [vaScanCost, he, Bool.false_eq_true, if_false, List.length_cons]
    omega

/-- The scan examines at most every cached entry. -/
lemma vaScanCost_le_length (l : List VACacheEntry) (p : Nat) :
    vaScanCost l p ≤ l.length := by
  induction l with
  | nil => simp [vaScanCost]
  | cons e rest ih =>
    simp only [vaScanCost, List.length_cons]
    split <;> omega

/-- The chain cache has one entry per index. -/
lemma length_vaChainCache (n : Nat) : (vaChainCache n).length = n := by
  simp [vaChainCache]

/-- The pointer 2n+1 lies beyond every range of the chain cache. -/
lemma vaChainCache_not_contains (n : Nat) :
    ∀ x ∈ vaChainCache n, vaContains x (2 * n + 1) = false := by
  intro x hx
  simp only [vaChainCache, List.mem_map, List.mem_range] at hx
  obtain ⟨i, hi, rfl⟩ := hx
  simp only [vaContains, Bool.and_eq_false_iff, decide_eq_false_iff_not]
  right
  omega

/-- Strict growth of 4^c over 2c²; drives the linear-vs-log separation. -/
lemma two_mul_sq_lt_four_pow (c : Nat) (hc : 1 ≤ c) : 2 * c ^ 2 < 4 ^ c := by
  induction c with
  | zero => omega
  | succ n ih =>
    by_cases hn : 1 ≤ n
    · have h := ih hn
      calc 2 * (n + 1) ^ 2 ≤ 4 * (2 * n ^ 2) := by nlinarith
        _ < 4 * 4 ^ n := by linarith
        _ = 4 ^ (n + 1) := by ring
    · have hz : n = 0 := by omega
      subst hz
      decide

/-- The linear scan cost at size 2^(2(a+b+1)) escapes the affine-log bound
with coefficients a, b. -/
lemma linear_lt_pow (a b : Nat) :
    a * (2 * (a + b + 1)) + b < 2 ^ (2 * (a + b + 1)) := by
  have h4 := two_mul_sq_lt_four_pow (a + b + 1) (by omega)
  have hpow : (4 : Nat) ^ (a + b + 1) = 2 ^ (2 * (a + b + 1)) := by
    rw [pow_mul]
    norm_num
  have hlin : a * (2 * (a + b + 1)) + b < 2 * (a + b + 1) ^ 2 := by nlinarith
  calc a * (2 * (a + b + 1)) + b < 2 * (a + b + 1) ^ 2 := hlin
    _ < 4 ^ (a + b + 1) := h4
    _ = 2 ^ (2 * (a + b + 1)) := hpow

/-- Claim C3: after `addVACache` registers memory m with range [s,e), a
lookup of any pointer p with s ≤ p < e returns m with offset p − s, and
after `removeVACache(m)` the same lookup returns the not-found sentinel.
The pointer is assumed unclaimed by the previously cached (disjoint)
ranges. -/
theorem vaCache_roundTrip (cache : List VACacheEntry) (s e m p : Nat)
    (hs : s ≤ p) (he : p < e)
    (hdisj : ∀ x ∈ cache, vaContains x p = false) :
    findMemoryFromVA (addVACache cache ⟨s, e, m⟩) p = some (m, p - s) ∧
    findMemoryFromVA (removeVACache (addVACache cache ⟨s, e, m⟩) m) p = none := by
  constructor
  · rw [addVACache, findMemoryFromVA_append_of_none cache _ p hdisj]
    simp [findMemoryFromVA, vaContains, hs, he]
  · apply findMemoryFromVA_of_none
    intro x hx
    simp only [removeVACache, addVACache, List.filter_append, List.mem_append,
      List.mem_filter] at hx
    rcases hx with ⟨hx, _⟩ | ⟨hx, hne⟩
    · exact hdisj x hx
    · simp at hx
      subst hx
      simp at hne

/-- Witness for `vaCache_roundTrip`: cache [⟨0,4,7⟩], new range [10,20)
for memory 1, pointer 12. -/
theorem vaCache_roundTrip_inst :
    findMemoryFromVA (addVACache [⟨0, 4, 7⟩] ⟨10, 20, 1⟩) 12 = some (1, 2) ∧
    findMemoryFromVA (removeVACache (addVACache [⟨0, 4, 7⟩] ⟨10, 20, 1⟩) 1) 12 = none :=
  vaCache_roundTrip [⟨0, 4, 7⟩] 10 20 1 12 (by decide) (by decide) (by decide)

/-- Claim C7, counterexample: `findMemoryFromVA` over the `std::list`
cache is a containment scan, and no affine-in-log bound a·log₂(n)+b caps
the number of entries it examines: a miss over n disjoint cached ranges
examines all n of them. -/
theorem va_lookup_log_cex :
    ¬ ∃ a b : Nat, ∀ (cache : List VACacheEntry) (p : Nat),
        vaScanCost cache p ≤ a * Nat.log 2 cache.length + b := by
  rintro ⟨a, b, h⟩
  have hb := h (vaChainCache (2 ^ (2 * (a + b + 1)))) (2 * 2 ^ (2 * (a + b + 1)) + 1)
  rw [vaScanCost_of_none _ _ (vaChainCache_not_contains _), length_vaChainCache,
    Nat.log_pow (by norm_num)] at hb
  exact Nat.lt_irrefl _ (Nat.lt_of_le_of_lt hb (linear_lt_pow a b))

/-! ### XferBuffers lemmas -/

/-- One event preserves the pool accounting acquired + free ≤ 8. -/
lemma stepXfer_inv (s : XferPool) (op : XferOp)
    (h : s.free + s.acquired ≤ MaxXferBufListSize) :
    (stepXfer s op).free + (stepXfer s op).acquired ≤ MaxXferBufListSize := by
  cases op with
  | acquire =>
    simp only [stepXfer, xferAcquire]
    split_ifs with h1 h2 <;> simp <;> omega
  | release =>
    simp only [stepXfer, xferRelease]
    split_ifs with h1
    · simp
      omega
    · exact h

/-- The accounting invariant holds after every event sequence. -/
lemma runXfer_inv (ops : List XferOp) : ∀ s : XferPool,
    s.free + s.acquired ≤ MaxXferBufListSize →
    (runXfer s ops).free + (runXfer s ops).acquired ≤ MaxXferBufListSize := by
  induction ops with
  | nil => intro s h; exact h
  | cons op ops ih =>
    intro s h
    exact ih (stepXfer s op) (stepXfer_inv s op h)

/-- Claim C2: over every sequence of acquire/release events the number of
acquired-and-not-released buffers never exceeds `MaxXferBufListSize = 8`;
at the ceiling with no free buffer an acquire blocks (and completes after a
release) instead of creating a ninth buffer; with an idle buffer it reuses
one; below the ceiling with no idle buffer it allocates a new one. -/
theorem xfer_acquire_bounded (s0 : XferPool) (ops : List XferOp)
    (hinv : s0.free + s0.acquired ≤ MaxXferBufListSize) :
    (runXfer s0 ops).acquired ≤ MaxXferBufListSize ∧
    (runXfer s0 ops).free + (runXfer s0 ops).acquired ≤ MaxXferBufListSize ∧
    ((runXfer s0 ops).free = 0 ∧ (runXfer s0 ops).acquired = MaxXferBufListSize →
      xferAcquire (runXfer s0 ops) = none ∧
      xferAcquire (xferRelease (runXfer s0 ops)) = some ⟨0, MaxXferBufListSize⟩) ∧
    (0 < (runXfer s0 ops).free →
      xferAcquire (runXfer s0 ops) =
        some ⟨(runXfer s0 ops).free - 1, (runXfer s0 ops).acquired + 1⟩) ∧
    ((runXfer s0 ops).free = 0 ∧ (runXfer s0 ops).acquired < MaxXferBufListSize →
      xferAcquire (runXfer s0 ops) =
        some ⟨(runXfer s0 ops).free, (runXfer s0 ops).acquired + 1⟩) := by
  have hrun := runXfer_inv ops s0 hinv
  refine ⟨by omega, hrun, ?_, ?_, ?_⟩
  · rintro ⟨hf, ha⟩
    constructor
    · simp [xferAcquire, hf, ha, MaxXferBufListSize]
    · simp [xferAcquire, xferRelease, hf, ha, MaxXferBufListSize]
  · intro hf
    simp [xferAcquire, hf]
  · rintro ⟨hf, ha⟩
    simp [xferAcquire, hf, ha]

/-- Witness for `xfer_acquire_bounded`: the empty pool driven to the
ceiling by nine acquire attempts and one release. -/
theorem xfer_acquire_bounded_inst :
    (runXfer ⟨0, 0⟩ (List.replicate 9 XferOp.acquire ++ [XferOp.release])).acquired ≤
      MaxXferBufListSize ∧
    (runXfer ⟨0, 0⟩ (List.replicate 9 XferOp.acquire ++ [XferOp.release])).free +
      (runXfer ⟨0, 0⟩ (List.replicate 9 XferOp.acquire ++ [XferOp.release])).acquired ≤
      MaxXferBufListSize ∧
    ((runXfer ⟨0, 0⟩ (List.replicate 9 XferOp.acquire ++ [XferOp.release])).free = 0 ∧
     (runXfer ⟨0, 0⟩ (List.replicate 9 XferOp.acquire ++ [XferOp.release])).acquired =
       MaxXferBufListSize →
      xferAcquire (runXfer ⟨0, 0⟩ (List.replicate 9 XferOp.acquire ++ [XferOp.release])) =
        none ∧
      xferAcquire (xferRelease
          (runXfer ⟨0, 0⟩ (List.replicate 9 XferOp.acquire ++ [XferOp.release]))) =
        some ⟨0, MaxXferBufListSize⟩) ∧
    (0 < (runXfer ⟨0, 0⟩ (List.replicate 9 XferOp.acquire ++ [XferOp.release])).free →
      xferAcquire (runXfer ⟨0, 0⟩ (List.replicate 9 XferOp.acquire ++ [XferOp.release])) =
        some ⟨(runXfer ⟨0, 0⟩ (List.replicate 9 XferOp.acquire ++ [XferOp.release])).free - 1,
          (runXfer ⟨0, 0⟩ (List.replicate 9 XferOp.acquire ++ [XferOp.release])).acquired + 1⟩) ∧
    ((runXfer ⟨0, 0⟩ (List.replicate 9 XferOp.acquire ++ [XferOp.release])).free = 0 ∧
     (runXfer ⟨0, 0⟩ (List.replicate 9 XferOp.acquire ++ [XferOp.release])).acquired <
       MaxXferBufListSize →
      xferAcquire (runXfer ⟨0, 0⟩ (List.replicate 9 XferOp.acquire ++ [XferOp.release])) =
        some ⟨(runXfer ⟨0, 0⟩ (List.replicate 9 XferOp.acquire ++ [XferOp.release])).free,
          (runXfer ⟨0, 0⟩ (List.replicate 9 XferOp.acquire ++ [XferOp.release])).acquired + 1⟩) :=
  xfer_acquire_bounded ⟨0, 0⟩ (List.replicate 9 XferOp.acquire ++ [XferOp.release]) (by decide)

/-! ### Scratch lemmas -/

/-- One scratch request never shrinks any queue's recorded size. -/
lemma allocScratch_mono (szCalc sizes : Nat → Nat) (q r q2 : Nat) :
    sizes q2 ≤ allocScratch szCalc sizes q r q2 := by
  simp only [allocScratch]
  split
  · exact le_refl _
  · rename_i h1
    by_cases h2 : q2 = q
    · subst h2
      simp
      omega
    · simp [h2]

/-- A queue's recorded size is non-decreasing along any request sequence. -/
lemma runScratch_mono (ops : List (Nat × Nat)) : ∀ (szCalc sizes : Nat → Nat) (q : Nat),
    sizes q ≤ runScratch szCalc sizes ops q := by
  induction ops with
  | nil => intro szCalc sizes q; exact le_refl _
  | cons p ops ih =>
    intro szCalc sizes q
    obtain ⟨qq, r⟩ := p
    exact le_trans (allocScratch_mono szCalc sizes qq r q) (ih szCalc _ q)

/-- Claim C4: for every interleaving of allocScratch requests across all
queues, the scratch size recorded for any queue is monotonically
non-decreasing, and a request not exceeding the queue's current allocation
leaves the scratch state (hence the global store) entirely unchanged. -/
theorem scratch_monotone (szCalc : Nat → Nat) (ops : List (Nat × Nat))
    (sizes : Nat → Nat) (q : Nat) :
    sizes q ≤ runScratch szCalc sizes ops q ∧
    ∀ (s : Nat → Nat) (q2 r : Nat), szCalc r ≤ s q2 → allocScratch szCalc s q2 r = s :=
  ⟨runScratch_mono ops szCalc sizes q,
   fun s q2 r h => by simp [allocScratch, h]⟩

/-- Witness for `scratch_monotone` at the identity size computation, a
single request of 3 registers on queue 0, all sizes starting at 0. -/
theorem scratch_monotone_inst :
    (fun _ => 0 : Nat → Nat) 0 ≤ runScratch (fun r => r) (fun _ => 0) [(0, 3)] 0 ∧
    ∀ (s : Nat → Nat) (q2 r : Nat), (fun r => r) r ≤ s q2 →
      allocScratch (fun r => r) s q2 r = s :=
  scratch_monotone (fun r => r) [(0, 3)] (fun _ => 0) 0

/-! ### SrdManager lemmas -/

/-- The bit `firstFalse` locates is clear. -/
lemma firstFalse_spec : ∀ (c : List Bool) (i : Nat),
    firstFalse c = some i → c.getD i false = false := by
  intro c
  induction c with
  | nil => intro i h; simp [firstFalse] at h
  | cons b rest ih =>
    intro i h
    cases b with
    | false =>
      simp [firstFalse] at h
      subst h
      rfl
    | true =>
      cases hf : firstFalse rest with
      | none => simp [firstFalse, hf] at h
      | some j =>
        simp [firstFalse, hf] at h
        subst h
        simpa using ih j hf

/-- The slot `findFreeSlot` locates has a clear occupancy bit. -/
lemma findFreeSlot_spec : ∀ (pool : List (List Bool)) (ci i : Nat),
    findFreeSlot pool = some (ci, i) → getSlot pool ci i = false := by
  intro pool
  induction pool with
  | nil => intro ci i h; simp [findFreeSlot] at h
  | cons c rest ih =>
    intro ci i h
    cases hf : firstFalse c with
    | some j =>
      simp only [findFreeSlot, hf, Option.some.injEq, Prod.mk.injEq] at h
      obtain ⟨h1, h2⟩ := h
      subst h1
      subst h2
      simpa [getSlot] using firstFalse_spec c j hf
    | none =>
      simp only [findFreeSlot, hf] at h
      cases hr : findFreeSlot rest with
      | none => rw [hr] at h; simp at h
      | some s =>
        rw [hr] at h
        simp only [Option.map_some', Option.some.injEq, Prod.mk.injEq] at h
        obtain ⟨h1, h2⟩ := h
        subst h1
        subst h2
        have hrec := ih s.1 s.2 (by rw [hr])
        simpa [getSlot] using hrec

/-- Writing a bit never changes the number of chunks. -/
lemma updPool_length : ∀ (pool : List (List Bool)) (ci i : Nat) (v : Bool),
    (updPool pool ci i v).length = pool.length := by
  intro pool
  induction pool with
  | nil => intro ci i v; rfl
  | cons c rest ih =>
    intro ci i v
    cases ci with
    | zero => simp [updPool]
    | succ n => simp [updPool, ih]

/-- Writing a bit preserves the chunk-size invariant. -/
lemma updPool_chunksWF (cap : Nat) : ∀ (pool : List (List Bool)) (ci i : Nat) (v : Bool),
    chunksWF cap pool = true → chunksWF cap (updPool pool ci i v) = true := by
  intro pool
  induction pool with
  | nil => intro ci i v h; exact h
  | cons c rest ih =>
    intro ci i v h
    simp only [chunksWF, List.all_cons, Bool.and_eq_true] at h
    cases ci with
    | zero =>
      simp only [updPool, chunksWF, List.all_cons, Bool.and_eq_true]
      exact ⟨by simpa [List.length_set] using h.1, h.2⟩
    | succ n =>
      simp only [updPool, chunksWF, List.all_cons, Bool.and_eq_true]
      exact ⟨h.1, ih n i v h.2⟩

/-- Appending a fresh chunk of cap bits preserves the chunk-size invariant. -/
lemma chunksWF_append_new (cap : Nat) (pool : List (List Bool))
    (h : chunksWF cap pool = true) :
    chunksWF cap (pool ++ [(List.replicate cap false).set 0 true]) = true := by
  simp only [chunksWF, List.all_append, Bool.and_eq_true] at h ⊢
  exact ⟨h, by simp⟩

/-- One request preserves the chunk-size invariant. -/
lemma stepSrd_chunksWF (cap : Nat) (pool : List (List Bool)) (op : SrdOp)
    (h : chunksWF cap pool = true) :
    chunksWF cap (stepSrd cap pool op) = true := by
  cases op with
  | alloc =>
    simp only [stepSrd, allocSrdSlot]
    cases hf : findFreeSlot pool with
    | some s =>
      obtain ⟨ci, i⟩ := s
      simp only [hf]
      exact updPool_chunksWF cap pool ci i true h
    | none =>
      simp only [hf]
      exact chunksWF_append_new cap pool h
  | free ci i => exact updPool_chunksWF cap pool ci i false h

/-- The chunk-size invariant holds after every request sequence. -/
lemma runSrd_chunksWF (cap : Nat) (ops : List SrdOp) : ∀ (pool : List (List Bool)),
    chunksWF cap pool = true → chunksWF cap (runSrd cap pool ops) = true := by
  induction ops with
  | nil => intro pool h; exact h
  | cons op ops ih =>
    intro pool h
    exact ih (stepSrd cap pool op) (stepSrd_chunksWF cap pool op h)

/-- Occupied slots never exceed the chunk table's capacity. -/
lemma countTrue_le (cap : Nat) : ∀ (pool : List (List Bool)),
    chunksWF cap pool = true → countTrue pool ≤ pool.length * cap := by
  intro pool
  induction pool with
  | nil => intro h; simp [countTrue]
  | cons c rest ih =>
    intro h
    simp only [chunksWF, List.all_cons, Bool.and_eq_true, beq_iff_eq] at h
    have h1 : c.count true ≤ cap := h.1 ▸ List.count_le_length _ _
    have h2 : (rest.map (fun c => c.count true)).sum ≤ rest.length * cap := ih h.2
    simp only [countTrue, List.map_cons, List.sum_cons, List.length_cons]
    rw [Nat.succ_mul]
    omega

/-- `allocSrdSlot` hands out a slot whose occupancy bit was clear in the
pre-state (a fresh chunk's slot lies outside the old pool, hence clear). -/
lemma allocSrdSlot_fresh (cap : Nat) (pool : List (List Bool)) :
    getSlot pool (allocSrdSlot cap pool).2.1 (allocSrdSlot cap pool).2.2 = false := by
  cases hf : findFreeSlot pool with
  | some s =>
    obtain ⟨ci, i⟩ := s
    simp only [allocSrdSlot, hf]
    exact findFreeSlot_spec pool ci i hf
  | none =>
    simp only [allocSrdSlot, hf, getSlot]
    have houter : pool.getD pool.length [] = [] := by
      apply List.getD_eq_default
      exact le_refl _
    rw [houter]
    rfl

/-- Claim C5: after every sequence of allocSrdSlot/freeSrdSlot requests,
the chunk-size invariant holds, the total number of occupied slots never
exceeds the total capacity of the chunk table, the next allocSrdSlot
returns a slot whose occupancy bit is not already set, and when every
existing chunk's bitmap is full a new fixed-size chunk is appended rather
than the request failing. -/
theorem srd_alloc_sound (cap : Nat) (pool0 : List (List Bool)) (ops : List SrdOp)
    (hwf : chunksWF cap pool0 = true) :
    chunksWF cap (runSrd cap pool0 ops) = true ∧
    countTrue (runSrd cap pool0 ops) ≤ (runSrd cap pool0 ops).length * cap ∧
    getSlot (runSrd cap pool0 ops) (allocSrdSlot cap (runSrd cap pool0 ops)).2.1
      (allocSrdSlot cap (runSrd cap pool0 ops)).2.2 = false ∧
    (findFreeSlot (runSrd cap pool0 ops) = none →
      (allocSrdSlot cap (runSrd cap pool0 ops)).1 =
        runSrd cap pool0 ops ++ [(List.replicate cap false).set 0 true]) := by
  have hrunwf := runSrd_chunksWF cap ops pool0 hwf
  refine ⟨hrunwf, countTrue_le cap _ hrunwf, allocSrdSlot_fresh cap _, ?_⟩
  intro hfull
  simp [allocSrdSlot, hfull]

/-- Witness for `srd_alloc_sound`: a one-chunk pool of two slots (one
occupied), driven by an alloc, a free and another alloc. -/
theorem srd_alloc_sound_inst :
    chunksWF 2 (runSrd 2 [[true, false]] [SrdOp.alloc, SrdOp.free 0 0, SrdOp.alloc]) = true ∧
    countTrue (runSrd 2 [[true, false]] [SrdOp.alloc, SrdOp.free 0 0, SrdOp.alloc]) ≤
      (runSrd 2 [[true, false]] [SrdOp.alloc, SrdOp.free 0 0, SrdOp.alloc]).length * 2 ∧
    getSlot (runSrd 2 [[true, false]] [SrdOp.alloc, SrdOp.free 0 0, SrdOp.alloc])
      (allocSrdSlot 2 (runSrd 2 [[true, false]] [SrdOp.alloc, SrdOp.free 0 0, SrdOp.alloc])).2.1
      (allocSrdSlot 2 (runSrd 2 [[true, false]] [SrdOp.alloc, SrdOp.free 0 0, SrdOp.alloc])).2.2 =
      false ∧
    (findFreeSlot (runSrd 2 [[true, false]] [SrdOp.alloc, SrdOp.free 0 0, SrdOp.alloc]) = none →
      (allocSrdSlot 2 (runSrd 2 [[true, false]] [SrdOp.alloc, SrdOp.free 0 0, SrdOp.alloc])).1 =
        runSrd 2 [[true, false]] [SrdOp.alloc, SrdOp.free 0 0, SrdOp.alloc] ++
          [(List.replicate 2 false).set 0 true]) :=
  srd_alloc_sound 2 [[true, false]] [SrdOp.alloc, SrdOp.free 0 0, SrdOp.alloc] (by decide)

/-- Claim C7 as amended: `findMemoryFromVA` resolves a pointer by a single
linear traversal of the list of cached ranges — it examines at most
`cache.length` entries, and for every n there is a cache of n disjoint
ranges and a pointer on which it examines exactly n (so the cost is linear,
not logarithmic, in the number of cached ranges). -/
theorem va_lookup_linear (cache : List VACacheEntry) (p : Nat) :
    vaScanCost cache p ≤ cache.length ∧
    ∀ n : Nat, (vaChainCache n).length = n ∧
      vaScanCost (vaChainCache n) (2 * n + 1) = n := by
  refine ⟨vaScanCost_le_length cache p, fun n => ⟨length_vaChainCache n, ?_⟩⟩
  rw [vaScanCost_of_none _ _ (vaChainCache_not_contains n), length_vaChainCache]

/-! ### Heap lemmas -/

/-- A chain starting at pos also starts at any earlier position. -/
lemma chainOK_mono : ∀ (bs : List HeapBlock) (p q : Nat),
    chainOK p bs = true → q ≤ p → chainOK q bs = true := by
  intro bs
  cases bs with
  | nil => intro p q h hq; rfl
  | cons b rest =>
    intro p q h hq
    simp only [chainOK, Bool.and_eq_true, decide_eq_true_eq] at h ⊢
    exact ⟨by omega, h.2⟩

/-- Every block of a chain starting at pos begins at or after pos. -/
lemma chainOK_le_off : ∀ (bs : List HeapBlock) (p : Nat),
    chainOK p bs = true → ∀ c ∈ bs, p ≤ c.off := by
  intro bs
  induction bs with
  | nil => intro p h c hc; simp at hc
  | cons b rest ih =>
    intro p h c hc
    simp only [chainOK, Bool.and_eq_true, decide_eq_true_eq] at h
    rcases List.mem_cons.mp hc with rfl | hc2
    · exact h.1
    · have := ih (b.off + b.len) h.2 c hc2
      omega

/-- Removing blocks preserves the chain property. -/
lemma chainOK_filter (f : HeapBlock → Bool) : ∀ (bs : List HeapBlock) (p : Nat),
    chainOK p bs = true → chainOK p (bs.filter f) = true := by
  intro bs
  induction bs with
  | nil => intro p h; exact h
  | cons b rest ih =>
    intro p h
    simp only [chainOK, Bool.and_eq_true, decide_eq_true_eq] at h
    by_cases hb : f b = true
    · simp only [List.filter_cons, hb, if_true, chainOK, Bool.and_eq_true,
        decide_eq_true_eq]
      exact ⟨h.1, ih (b.off + b.len) h.2⟩
    · simp only [List.filter_cons, hb, if_false]
      exact chainOK_mono _ (b.off + b.len) p (ih (b.off + b.len) h.2) (by omega)

/-- Removing blocks keeps every end within the heap. -/
lemma endsLE_filter (f : HeapBlock → Bool) (s : Nat) (bs : List HeapBlock)
    (h : endsLE s bs = true) : endsLE s (bs.filter f) = true := by
  simp only [endsLE, List.all_eq_true] at h ⊢
  intro x hx
  exact h x (List.mem_of_mem_filter hx)

/-- Growing the heap keeps every end within it. -/
lemma endsLE_mono (s s2 : Nat) (bs : List HeapBlock)
    (h : endsLE s bs = true) (hs : s ≤ s2) : endsLE s2 bs = true := by
  simp only [endsLE, List.all_eq_true, decide_eq_true_eq] at h ⊢
  intro x hx
  have := h x hx
  omega

/-- A successful first-fit insertion preserves the chain and bounds
invariants. -/
lemma allocIn_WF : ∀ (bs : List HeapBlock) (pos sz heapSize : Nat)
    (bs2 : List HeapBlock) (off : Nat),
    chainOK pos bs = true → endsLE heapSize bs = true →
    allocIn heapSize sz pos bs = some (bs2, off) →
    chainOK pos bs2 = true ∧ endsLE heapSize bs2 = true := by
  intro bs
  induction bs with
  | nil =>
    intro pos sz heapSize bs2 off hc he ha
    simp only [allocIn] at ha
    split_ifs at ha with hle
    simp only [Option.some.injEq, Prod.mk.injEq] at ha
    obtain ⟨hbs, hoff⟩ := ha
    subst hbs
    constructor
    · simp [chainOK]
    · simp [endsLE, hle]
  | cons b rest ih =>
    intro pos sz heapSize bs2 off hc he ha
    simp only [chainOK, Bool.and_eq_true, decide_eq_true_eq] at hc
    obtain ⟨h1, h2⟩ := hc
    simp only [endsLE, List.all_cons, Bool.and_eq_true, decide_eq_true_eq] at he
    obtain ⟨he1, he2⟩ := he
    simp only [allocIn] at ha
    by_cases hle : pos + sz ≤ b.off
    · rw [if_pos hle] at ha
      simp only [Option.some.injEq, Prod.mk.injEq] at ha
      obtain ⟨hbs, hoff⟩ := ha
      subst hbs
      constructor
      · simp only [chainOK, Bool.and_eq_true, decide_eq_true_eq]
        exact ⟨le_refl _, hle, h2⟩
      · simp only [endsLE, List.all_cons, Bool.and_eq_true, decide_eq_true_eq]
        exact ⟨by omega, he1, he2⟩
    · rw [if_neg hle] at ha
      cases hrec : allocIn heapSize sz (b.off + b.len) rest with
      | none => rw [hrec] at ha; simp at ha
      | some pr =>
        obtain ⟨bs', off'⟩ := pr
        rw [hrec] at ha
        simp only [Option.some.injEq, Prod.mk.injEq] at ha
        obtain ⟨hbs, hoff⟩ := ha
        subst hbs
        have hrw := ih (b.off + b.len) sz heapSize bs' off' h2 he2 hrec
        constructor
        · simp only [chainOK, Bool.and_eq_true, decide_eq_true_eq]
          exact ⟨h1, hrw.1⟩
        · simp only [endsLE, List.all_cons, Bool.and_eq_true, decide_eq_true_eq]
          exact ⟨he1, hrw.2⟩

/-- The live blocks of a well-formed chain fit in the heap: their total
size is at most the space above pos. -/
lemma blockSum_le : ∀ (bs : List HeapBlock) (pos size : Nat),
    chainOK pos bs = true → endsLE size bs = true →
    blockSum bs ≤ size - pos := by
  intro bs
  induction bs with
  | nil => intro pos size hc he; simp [blockSum]
  | cons b rest ih =>
    intro pos size hc he
    simp only [chainOK, Bool.and_eq_true, decide_eq_true_eq] at hc
    obtain ⟨h1, h2⟩ := hc
    simp only [endsLE, List.all_cons, Bool.and_eq_true, decide_eq_true_eq] at he
    obtain ⟨he1, he2⟩ := he
    have ihr : (rest.map (fun b => b.len)).sum ≤ size - (b.off + b.len) :=
      ih (b.off + b.len) size h2 he2
    simp only [blockSum, List.map_cons, List.sum_cons]
    omega

/-- A well-formed chain is pairwise ordered-disjoint: each block ends at or
before the next one begins. -/
lemma chainOK_pairwise : ∀ (bs : List HeapBlock) (pos : Nat),
    chainOK pos bs = true →
    List.Pairwise (fun x y => x.off + x.len ≤ y.off) bs := by
  intro bs
  induction bs with
  | nil => intro pos h; exact List.Pairwise.nil
  | cons b rest ih =>
    intro pos h
    simp only [chainOK, Bool.and_eq_true, decide_eq_true_eq] at h
    exact List.Pairwise.cons (chainOK_le_off rest (b.off + b.len) h.2)
      (ih (b.off + b.len) h.2)

/-- One heap request preserves well-formedness. -/
lemma stepHeap_WF (h : Heap) (op : HeapOp) (hwf : heapWF h = true) :
    heapWF (stepHeap h op) = true := by
  have hcw : chainOK 0 h.blocks = true ∧ endsLE h.size h.blocks = true := by
    simpa [heapWF, Bool.and_eq_true] using hwf
  obtain ⟨hc, he⟩ := hcw
  cases op with
  | free off =>
    simp only [stepHeap, freeBlock, heapWF, Bool.and_eq_true]
    exact ⟨chainOK_filter _ h.blocks 0 hc, endsLE_filter _ h.size h.blocks he⟩
  | alloc sz nOK =>
    cases haa : allocIn h.size sz 0 h.blocks with
    | some pr =>
      obtain ⟨bs, off⟩ := pr
      simp only [stepHeap, allocHeapBlock, haa]
      have hiw := allocIn_WF h.blocks 0 sz h.size bs off hc he haa
      simp only [heapWF, Bool.and_eq_true]
      exact ⟨hiw.1, hiw.2⟩
    | none =>
      simp only [stepHeap, allocHeapBlock, haa]
      cases nOK with
      | false => simpa using hwf
      | true =>
        simp only [if_true]
        cases hb : allocIn (reallocHeap h (heapEnd h.blocks + sz)).size sz 0 h.blocks with
        | some pr2 =>
          obtain ⟨bs, off⟩ := pr2
          simp only [hb]
          have he2 : endsLE (reallocHeap h (heapEnd h.blocks + sz)).size h.blocks = true :=
            endsLE_mono h.size _ h.blocks he (le_max_left _ _)
          have hiw := allocIn_WF h.blocks 0 sz _ bs off hc he2 hb
          simp only [heapWF, Bool.and_eq_true]
          exact ⟨hiw.1, hiw.2⟩
        | none => simpa using hwf

/-- Well-formedness holds after every request sequence. -/
lemma runHeapOps_WF (ops : List HeapOp) : ∀ (h : Heap),
    heapWF h = true → heapWF (runHeapOps h ops) = true := by
  induction ops with
  | nil => intro h hwf; exact hwf
  | cons op ops ih =>
    intro h hwf
    exact ih (stepHeap h op) (stepHeap_WF h op hwf)

/-- Claim C1: over every sequence of block allocations and releases on one
heap, the live blocks stay pairwise disjoint within the heap's address
space, their total size never exceeds the heap size, and a request for
which no free region suffices either triggers reallocHeap (yielding a
well-formed grown heap) or reports allocation failure — never a silently
overlapping block. -/
theorem heap_alloc_invariant (h0 : Heap) (ops : List HeapOp)
    (hwf : heapWF h0 = true) :
    heapWF (runHeapOps h0 ops) = true ∧
    List.Pairwise (fun x y => x.off + x.len ≤ y.off) (runHeapOps h0 ops).blocks ∧
    blockSum (runHeapOps h0 ops).blocks ≤ (runHeapOps h0 ops).size ∧
    (∀ sz nOK, allocIn (runHeapOps h0 ops).size sz 0 (runHeapOps h0 ops).blocks = none →
      (∃ h2 off, allocHeapBlock (runHeapOps h0 ops) sz nOK = AllocResult.realloc h2 off ∧
        heapWF h2 = true) ∨
      allocHeapBlock (runHeapOps h0 ops) sz nOK = AllocResult.failed) := by
  have hr := runHeapOps_WF ops h0 hwf
  have hcw : chainOK 0 (runHeapOps h0 ops).blocks = true ∧
      endsLE (runHeapOps h0 ops).size (runHeapOps h0 ops).blocks = true := by
    simpa [heapWF, Bool.and_eq_true] using hr
  obtain ⟨hc, he⟩ := hcw
  refine ⟨hr, chainOK_pairwise _ 0 hc, ?_, ?_⟩
  · have := blockSum_le (runHeapOps h0 ops).blocks 0 (runHeapOps h0 ops).size hc he
    omega
  · intro sz nOK hnone
    simp only [allocHeapBlock, hnone]
    cases nOK with
    | false => right; rfl
    | true =>
      simp only [if_true]
      cases hb : allocIn (reallocHeap (runHeapOps h0 ops)
          (heapEnd (runHeapOps h0 ops).blocks + sz)).size sz 0
          (runHeapOps h0 ops).blocks with
      | some pr =>
        obtain ⟨bs, off⟩ := pr
        left
        refine ⟨_, off, rfl, ?_⟩
        have he2 : endsLE (reallocHeap (runHeapOps h0 ops)
            (heapEnd (runHeapOps h0 ops).blocks + sz)).size
            (runHeapOps h0 ops).blocks = true :=
          endsLE_mono _ _ _ he (le_max_left _ _)
        have hiw := allocIn_WF (runHeapOps h0 ops).blocks 0 sz _ bs off hc he2 hb
        simp only [heapWF, Bool.and_eq_true]
        exact ⟨hiw.1, hiw.2⟩
      | none =>
        right
        rfl

/-- Witness for `heap_alloc_invariant`: a 32-byte heap driven by two
16-byte allocations, a release at offset 0 and a 32-byte allocation that
forces reallocation. -/
theorem heap_alloc_invariant_inst :
    heapWF (runHeapOps ⟨32, []⟩
      [HeapOp.alloc 16 true, HeapOp.alloc 16 true, HeapOp.free 0,
        HeapOp.alloc 32 true]) = true ∧
    List.Pairwise (fun x y => x.off + x.len ≤ y.off)
      (runHeapOps ⟨32, []⟩
        [HeapOp.alloc 16 true, HeapOp.alloc 16 true, HeapOp.free 0,
          HeapOp.alloc 32 true]).blocks ∧
    blockSum (runHeapOps ⟨32, []⟩
        [HeapOp.alloc 16 true, HeapOp.alloc 16 true, HeapOp.free 0,
          HeapOp.alloc 32 true]).blocks ≤
      (runHeapOps ⟨32, []⟩
        [HeapOp.alloc 16 true, HeapOp.alloc 16 true, HeapOp.free 0,
          HeapOp.alloc 32 true]).size ∧
    (∀ sz nOK, allocIn (runHeapOps ⟨32, []⟩
        [HeapOp.alloc 16 true, HeapOp.alloc 16 true, HeapOp.free 0,
          HeapOp.alloc 32 true]).size sz 0
        (runHeapOps ⟨32, []⟩
          [HeapOp.alloc 16 true, HeapOp.alloc 16 true, HeapOp.free 0,
            HeapOp.alloc 32 true]).blocks = none →
      (∃ h2 off, allocHeapBlock (runHeapOps ⟨32, []⟩
          [HeapOp.alloc 16 true, HeapOp.alloc 16 true, HeapOp.free 0,
            HeapOp.alloc 32 true]) sz nOK = AllocResult.realloc h2 off ∧
        heapWF h2 = true) ∨
      allocHeapBlock (runHeapOps ⟨32, []⟩
          [HeapOp.alloc 16 true, HeapOp.alloc 16 true, HeapOp.free 0,
            HeapOp.alloc 32 true]) sz nOK = AllocResult.failed) :=
  heap_alloc_invariant ⟨32, []⟩
    [HeapOp.alloc 16 true, HeapOp.alloc 16 true, HeapOp.free 0,
      HeapOp.alloc 32 true] (by decide)

end GpuDev
